import Mathlib

/-!
Shallow embedding of the supply-chain chaincode
(`src/chaincode/smartcontracts.go`) and proofs about it.

The chaincode is a product registry over a key-value state store
(the Fabric stub).  The store is modelled as an association list kept
sorted by key (the stub's range scan enumerates keys in lexicographic
order); stored values are modelled as `Bytes`: either a flat JSON
object of string fields (what `json.Marshal` of a `ProductEntity`
produces) or bytes that do not parse as JSON.  The transaction-time
oracle (`GetTxTimestamp`) is modelled as an `Option String`: `none`
means the oracle fails.
-/

namespace SupplyChain

/-- Model of `ProductEntity` from the source, fields in Go declaration order. -/
structure ProductEntity where
  ProductID : String
  ProductName : String
  ProductStatus : String
  CurrentOwner : String
  CreatedDate : String
  UpdatedDate : String
  ProductCategory : String
  ProductDescription : String
deriving DecidableEq, Repr

/-- The Go zero value of `ProductEntity` (`var product ProductEntity`). -/
def zeroProduct : ProductEntity :=
  { ProductID := "", ProductName := "", ProductStatus := "", CurrentOwner := "",
    CreatedDate := "", UpdatedDate := "", ProductCategory := "", ProductDescription := "" }

/-- A flat JSON object whose values are all strings. -/
abbrev JsonObj := List (String × String)

/-- Stored ledger bytes: either a well-formed flat JSON object of string
fields, or bytes that fail JSON parsing (`json.Unmarshal` rejects them
before touching the target value). -/
inductive Bytes where
  | json (fields : JsonObj)
  | corrupt (raw : String)
deriving DecidableEq, Repr

/-- Go JSON field lookup with zero-value default: a missing key leaves the
string field at its zero value `""`. -/
def lookupField (fields : JsonObj) (k : String) : String :=
  (fields.lookup k).getD ""

/-- Model of `json.Marshal` of a `ProductEntity`: a flat JSON object with the wire
field names from the struct tags, in struct declaration order. -/
def marshalProduct (p : ProductEntity) : Bytes :=
  .json [("product_id", p.ProductID), ("product_name", p.ProductName),
         ("product_status", p.ProductStatus), ("current_owner", p.CurrentOwner),
         ("created_date", p.CreatedDate), ("updated_date", p.UpdatedDate),
         ("product_category", p.ProductCategory),
         ("product_description", p.ProductDescription)]

/-- Model of `json.Unmarshal` into a `ProductEntity`, with the error checked:
corrupt bytes yield an error, a JSON object decodes each tagged field
(missing fields keep the zero value `""`). -/
def unmarshalProduct : Bytes → Except Unit ProductEntity
  | .corrupt _ => .error ()
  | .json f =>
      .ok { ProductID := lookupField f "product_id",
            ProductName := lookupField f "product_name",
            ProductStatus := lookupField f "product_status",
            CurrentOwner := lookupField f "current_owner",
            CreatedDate := lookupField f "created_date",
            UpdatedDate := lookupField f "updated_date",
            ProductCategory := lookupField f "product_category",
            ProductDescription := lookupField f "product_description" }

/-- Model of `json.Unmarshal` with its error ignored, as in `ModifyProduct`
(line 90 of the source): on corrupt bytes the target is left at the Go
zero value, since `Unmarshal` validates the input before decoding. -/
def unmarshalProductLenient (b : Bytes) : ProductEntity :=
  match unmarshalProduct b with
  | .ok p => p
  | .error _ => zeroProduct

/-- The product written by a registration (source lines 72-74): status
fixed to "Manufactured", both dates at the oracle timestamp. -/
def newProduct (id name owner description category t : String) : ProductEntity :=
  { ProductID := id, ProductName := name, ProductStatus := "Manufactured",
    CurrentOwner := owner, CreatedDate := t, UpdatedDate := t,
    ProductCategory := category, ProductDescription := description }

/-- The merged record a successful `ModifyProduct` saves (source lines
92-105): each non-empty proposal overwrites its field, and `UpdatedDate`
is refreshed to the oracle timestamp. -/
def mergeProduct (p : ProductEntity)
    (status owner description category t : String) : ProductEntity :=
  { ProductID := p.ProductID, ProductName := p.ProductName,
    ProductStatus := if status = "" then p.ProductStatus else status,
    CurrentOwner := if owner = "" then p.CurrentOwner else owner,
    CreatedDate := p.CreatedDate, UpdatedDate := t,
    ProductCategory := if category = "" then p.ProductCategory else category,
    ProductDescription := if description = "" then p.ProductDescription else description }

/-- The ledger state: key-value pairs kept sorted by key, matching the
stub's lexicographically ordered keyspace. -/
abbrev Ledger := List (String × Bytes)

/-- Model of `GetState`: `none` models the stub's nil return for an absent key. -/
def getState (st : Ledger) (key : String) : Option Bytes :=
  st.lookup key

/-- Lexicographic order on key characters by Unicode scalar value, the
order in which the store's range scan enumerates keys. -/
def keyLt : List Char → List Char → Bool
  | [], [] => false
  | [], _ :: _ => true
  | _ :: _, [] => false
  | a :: as, b :: bs => if a < b then true else if b < a then false else keyLt as bs

/-- Lexicographic order on keys. -/
def strLt (a b : String) : Bool := keyLt a.data b.data

/-- Model of `PutState`: insert or replace, keeping the ledger sorted by key. -/
def putState : Ledger → String → Bytes → Ledger
  | [], key, val => [(key, val)]
  | (k, v) :: rest, key, val =>
      if strLt key k then (key, val) :: (k, v) :: rest
      else if key = k then (key, val) :: rest
      else (k, v) :: putState rest key val

/-- Error kinds surfaced by the chaincode operations, one per distinct
`fmt.Errorf` site reachable in the model. -/
inductive CCError where
  | alreadyExists (id : String)
  | notFound (id : String)
  | timestampUnavailable
  | serializationFailure
deriving DecidableEq, Repr

/-- Model of `fetchTransactionTimestamp`: formats the stub's transaction timestamp,
failing when the oracle does. -/
def fetchTransactionTimestamp (ts : Option String) : Except CCError String :=
  match ts with
  | some t => .ok t
  | none => .error .timestampUnavailable

/-- Model of `saveProduct`: marshal the product and `PutState` it under
`product.ProductID` (marshalling a struct of strings cannot fail). -/
def saveProduct (st : Ledger) (product : ProductEntity) : Except CCError Unit × Ledger :=
  (.ok (), putState st product.ProductID (marshalProduct product))

/-- Model of `CheckProductExistence`: true iff `GetState` returns non-nil bytes. -/
def CheckProductExistence (st : Ledger) (id : String) : Except CCError Bool :=
  .ok (getState st id).isSome

/-- Model of `RegisterProduct`: fail if the id exists, otherwise build the new
product with status `"Manufactured"` and both dates set to the
transaction timestamp, and save it.  The pair's second component is the
ledger after the call (unchanged on error). -/
def RegisterProduct (st : Ledger) (ts : Option String)
    (id name owner description category : String) : Except CCError Unit × Ledger :=
  match CheckProductExistence st id with
  | .error e => (.error e, st)
  | .ok true => (.error (.alreadyExists id), st)
  | .ok false =>
      match fetchTransactionTimestamp ts with
      | .error e => (.error e, st)
      | .ok timeNow =>
          saveProduct st
            { ProductID := id, ProductName := name, ProductStatus := "Manufactured",
              CurrentOwner := owner, CreatedDate := timeNow, UpdatedDate := timeNow,
              ProductDescription := description, ProductCategory := category }

/-- Model of `ModifyProduct`: fail with not-found on an absent key; otherwise
unmarshal the stored bytes (the source ignores the unmarshal error),
overwrite each of status/owner/description/category exactly when the
proposed value is non-empty, refresh `UpdatedDate` from the oracle and
save the result. -/
def ModifyProduct (st : Ledger) (ts : Option String)
    (id status owner description category : String) : Except CCError Unit × Ledger :=
  match getState st id with
  | none => (.error (.notFound id), st)
  | some productBytes =>
      let p0 := unmarshalProductLenient productBytes
      let p1 := if status ≠ "" then { p0 with ProductStatus := status } else p0
      let p2 := if owner ≠ "" then { p1 with CurrentOwner := owner } else p1
      let p3 := if description ≠ "" then { p2 with ProductDescription := description } else p2
      let p4 := if category ≠ "" then { p3 with ProductCategory := category } else p3
      match fetchTransactionTimestamp ts with
      | .error e => (.error e, st)
      | .ok timeNow => saveProduct st { p4 with UpdatedDate := timeNow }

/-- Model of `TransferOwnership`: exactly `ModifyProduct` with only the
owner populated. -/
def TransferOwnership (st : Ledger) (ts : Option String)
    (id newOwner : String) : Except CCError Unit × Ledger :=
  ModifyProduct st ts id "" newOwner "" ""

/-- Model of `RetrieveProduct`: not-found on an absent key, serialization failure
on corrupt bytes (here the source does check the unmarshal error),
otherwise the decoded product.  Read-only. -/
def RetrieveProduct (st : Ledger) (id : String) : Except CCError ProductEntity :=
  match getState st id with
  | none => .error (.notFound id)
  | some productBytes =>
      match unmarshalProduct productBytes with
      | .error _ => .error .serializationFailure
      | .ok product => .ok product

/-- The loop body of `ListAllProducts`: decode every value of the range
scan in order, stopping with an error on the first undecodable value. -/
def listDecode : Ledger → Except CCError (List ProductEntity)
  | [] => .ok []
  | (_, bytes) :: rest =>
      match unmarshalProduct bytes with
      | .error _ => .error .serializationFailure
      | .ok p =>
          match listDecode rest with
          | .error e => .error e
          | .ok ps => .ok (p :: ps)

/-- Model of `ListAllProducts`: the call `GetStateByRange` with empty
bounds enumerates the whole
(sorted) ledger; every value is decoded in key order. -/
def ListAllProducts (st : Ledger) : Except CCError (List ProductEntity) :=
  listDecode st

/-- A single mutating chaincode invocation, for reasoning about
operation sequences. -/
inductive Op where
  | register (id name owner description category : String)
  | modify (id status owner description category : String)
  | transfer (id newOwner : String)

/-- Run one mutating invocation at oracle time `t`; the ledger after the
call is the pair's second component (unchanged when the call errors). -/
def applyOp (st : Ledger) (t : String) : Op → Ledger
  | .register id name owner description category =>
      (RegisterProduct st (some t) id name owner description category).2
  | .modify id status owner description category =>
      (ModifyProduct st (some t) id status owner description category).2
  | .transfer id newOwner =>
      (TransferOwnership st (some t) id newOwner).2

/-- Run a sequence of invocations, each with its own oracle timestamp. -/
def runOps (st : Ledger) : List (String × Op) → Ledger
  | [] => st
  | (t, op) :: rest => runOps (applyOp st t op) rest

/-- The oracle timestamps of an operation sequence are non-decreasing,
starting from `now`. -/
def TimesMono : String → List (String × Op) → Prop
  | _, [] => True
  | now, (t, _) :: rest => now ≤ t ∧ TimesMono t rest

/-- The timestamp of the last operation of a sequence (or `now` when the
sequence is empty). -/
def endTime : String → List (String × Op) → String
  | now, [] => now
  | _, (t, _) :: rest => endTime t rest

/-- Every stored value is the serialization of a product whose id is its
store key and whose dates satisfy `CreatedDate ≤ UpdatedDate ≤ now`. -/
def WellFormed (st : Ledger) (now : String) : Prop :=
  ∀ k b, getState st k = some b →
    ∃ p : ProductEntity, b = marshalProduct p ∧ p.ProductID = k ∧
      p.CreatedDate ≤ p.UpdatedDate ∧ p.UpdatedDate ≤ now

/-- Model of `InitializeLedger`: writes the two bootstrap products
unconditionally (after fetching the timestamp). -/
def InitializeLedger (st : Ledger) (ts : Option String) : Except CCError Unit × Ledger :=
  match fetchTransactionTimestamp ts with
  | .error e => (.error e, st)
  | .ok timeNow =>
      let prod1 : ProductEntity :=
        { ProductID := "prod1", ProductName := "Gaming Laptop",
          ProductStatus := "Manufactured", CurrentOwner := "TechCorp",
          CreatedDate := timeNow, UpdatedDate := timeNow,
          ProductDescription := "A high-performance gaming laptop",
          ProductCategory := "Electronics" }
      let prod2 : ProductEntity :=
        { ProductID := "prod2", ProductName := "5G Smartphone",
          ProductStatus := "Manufactured", CurrentOwner := "MobileCo",
          CreatedDate := timeNow, UpdatedDate := timeNow,
          ProductDescription := "Latest 5G-enabled smartphone",
          ProductCategory := "Electronics" }
      let st1 := (saveProduct st prod1).2
      saveProduct st1 prod2

/-- A sample product for concrete instantiations. -/
def sampleProduct : ProductEntity :=
  { ProductID := "A", ProductName := "Widget", ProductStatus := "Manufactured",
    CurrentOwner := "Acme", CreatedDate := "T0", UpdatedDate := "T0",
    ProductCategory := "cat", ProductDescription := "desc" }

/-- A second sample product for concrete instantiations. -/
def sampleProduct2 : ProductEntity :=
  { ProductID := "B", ProductName := "Gadget", ProductStatus := "Manufactured",
    CurrentOwner := "Bmart", CreatedDate := "T0", UpdatedDate := "T0",
    ProductCategory := "cat2", ProductDescription := "desc2" }

/-- A one-record sample ledger. -/
def sampleLedger : Ledger := [("A", marshalProduct sampleProduct)]

/-- A two-record sample ledger in key order. -/
def sampleLedger2 : Ledger :=
  [("A", marshalProduct sampleProduct), ("B", marshalProduct sampleProduct2)]

/-! ## Store and serialization lemmas -/

/-- Decoding inverts encoding: the eight wire field names are distinct, so
every field is recovered. -/
theorem unmarshal_marshal (p : ProductEntity) :
    unmarshalProduct (marshalProduct p) = .ok p := rfl

/-- Error-ignoring decoding also inverts encoding. -/
theorem lenient_marshal (p : ProductEntity) :
    unmarshalProductLenient (marshalProduct p) = p := rfl

/-- Serialization is injective. -/
theorem marshalProduct_inj {p q : ProductEntity}
    (h : marshalProduct p = marshalProduct q) : p = q := by
  have h2 := congrArg unmarshalProduct h
  rw [unmarshal_marshal, unmarshal_marshal] at h2
  exact Except.ok.inj h2

/-- Two characters neither of which is less than the other are equal. -/
theorem char_eq_of_not_lt {a b : Char} (h1 : ¬a < b) (h2 : ¬b < a) : a = b :=
  le_antisymm (not_lt.mp h2) (not_lt.mp h1)

/-- Lexicographic key order is transitive. -/
theorem keyLt_trans : ∀ (a b c : List Char),
    keyLt a b = true → keyLt b c = true → keyLt a c = true
  | [], [], _, h1, _ => by simp [keyLt] at h1
  | [], _ :: _, [], _, h2 => by simp [keyLt] at h2
  | [], _ :: _, _ :: _, _, _ => by simp [keyLt]
  | _ :: _, [], _, h1, _ => by simp [keyLt] at h1
  | _ :: _, _ :: _, [], _, h2 => by simp [keyLt] at h2
  | a :: as, b :: bs, c :: cs, h1, h2 => by
      simp only [keyLt] at h1 h2 ⊢
      by_cases hab : a < b
      · by_cases hbc : b < c
        · simp [lt_trans hab hbc]
        · by_cases hcb : c < b
          · simp [if_neg hbc, if_pos hcb] at h2
          · have hbc2 : b = c := char_eq_of_not_lt hbc hcb
            subst hbc2
            simp [hab]
      · by_cases hba : b < a
        · simp [if_neg hab, if_pos hba] at h1
        · have hab2 : a = b := char_eq_of_not_lt hab hba
          subst hab2
          simp only [if_neg hab, lt_irrefl, if_false, if_neg hba] at h1
          by_cases hac : a < c
          · simp [hac]
          · by_cases hca : c < a
            · simp [if_neg hac, if_pos hca] at h2
            · simp only [if_neg hac, if_neg hca] at h2 ⊢
              exact keyLt_trans as bs cs h1 h2

/-- Lexicographic key order is total up to equality. -/
theorem keyLt_total : ∀ (a b : List Char),
    keyLt a b = true ∨ a = b ∨ keyLt b a = true
  | [], [] => Or.inr (Or.inl rfl)
  | [], _ :: _ => Or.inl (by simp [keyLt])
  | _ :: _, [] => Or.inr (Or.inr (by simp [keyLt]))
  | a :: as, b :: bs => by
      rcases lt_trichotomy a b with h | h | h
      · exact Or.inl (by simp [keyLt, h])
      · subst h
        rcases keyLt_total as bs with h | h | h
        · exact Or.inl (by simp [keyLt, lt_irrefl, h])
        · exact Or.inr (Or.inl (by rw [h]))
        · exact Or.inr (Or.inr (by simp [keyLt, lt_irrefl, h]))
      · exact Or.inr (Or.inr (by simp [keyLt, h, lt_asymm h]))

/-- `strLt` is transitive. -/
theorem strLt_trans {a b c : String} (h1 : strLt a b = true)
    (h2 : strLt b c = true) : strLt a c = true :=
  keyLt_trans a.data b.data c.data h1 h2

/-- `strLt` is total up to equality. -/
theorem strLt_total (a b : String) : strLt a b = true ∨ a = b ∨ strLt b a = true := by
  rcases keyLt_total a.data b.data with h | h | h
  · exact Or.inl h
  · refine Or.inr (Or.inl ?_)
    cases a with
    | mk da =>
        cases b with
        | mk db => exact congrArg String.mk h
  · exact Or.inr (Or.inr h)

/-- Reading back the key just written yields the written value. -/
theorem getState_putState_self (st : Ledger) (k : String) (v : Bytes) :
    getState (putState st k v) k = some v := by
  induction st with
  | nil => simp [putState, getState, List.lookup]
  | cons hd tl ih =>
      rcases hd with ⟨hk, hv⟩
      simp only [putState]
      split_ifs with h1 h2
      · simp [getState, List.lookup]
      · simp [getState, List.lookup]
      · have hne : (k == hk) = false := beq_eq_false_iff_ne.mpr h2
        simpa [getState, List.lookup, hne] using ih

/-- Writing one key does not change what is read at another key. -/
theorem getState_putState_ne (st : Ledger) (k k' : String) (v : Bytes)
    (h : k' ≠ k) : getState (putState st k v) k' = getState st k' := by
  have hne : (k' == k) = false := beq_eq_false_iff_ne.mpr h
  induction st with
  | nil => simp [putState, getState, List.lookup, hne]
  | cons hd tl ih =>
      rcases hd with ⟨hk, hv⟩
      simp only [putState]
      split_ifs with h1 h2
      · simp [getState, List.lookup, hne]
      · subst h2
        simp [getState, List.lookup, hne]
      · by_cases h3 : k' = hk
        · subst h3
          simp [getState, List.lookup]
        · have hne3 : (k' == hk) = false := beq_eq_false_iff_ne.mpr h3
          simpa [getState, List.lookup, hne3] using ih

/-- Every entry of the ledger after a write is the written pair or an old
entry. -/
theorem mem_putState (st : Ledger) (k : String) (v : Bytes) :
    ∀ a ∈ putState st k v, a = (k, v) ∨ a ∈ st := by
  induction st with
  | nil =>
      intro a ha
      simp only [putState, List.mem_singleton] at ha
      exact Or.inl ha
  | cons hd tl ih =>
      rcases hd with ⟨hk, hv⟩
      intro a ha
      simp only [putState] at ha
      split_ifs at ha with h1 h2
      · rw [List.mem_cons, List.mem_cons] at ha
        rcases ha with ha | ha | ha
        · exact Or.inl ha
        · exact Or.inr (ha ▸ List.mem_cons_self _ _)
        · exact Or.inr (List.mem_cons_of_mem _ ha)
      · rw [List.mem_cons] at ha
        rcases ha with ha | ha
        · exact Or.inl ha
        · exact Or.inr (List.mem_cons_of_mem _ ha)
      · rw [List.mem_cons] at ha
        rcases ha with ha | ha
        · exact Or.inr (ha ▸ List.mem_cons_self _ _)
        · rcases ih a ha with h | h
          · exact Or.inl h
          · exact Or.inr (List.mem_cons_of_mem _ h)

/-- Writing preserves strict sortedness of the ledger by key. -/
theorem putState_pairwise (st : Ledger) (k : String) (v : Bytes)
    (h : st.Pairwise (fun a b => strLt a.1 b.1 = true)) :
    (putState st k v).Pairwise (fun a b => strLt a.1 b.1 = true) := by
  induction st with
  | nil => simp [putState]
  | cons hd tl ih =>
      rcases hd with ⟨hk, hv⟩
      rw [List.pairwise_cons] at h
      obtain ⟨hall, htl⟩ := h
      simp only [putState]
      split_ifs with h1 h2
      · rw [List.pairwise_cons, List.pairwise_cons]
        refine ⟨?_, hall, htl⟩
        intro a ha
        rw [List.mem_cons] at ha
        rcases ha with ha | ha
        · rw [ha]; exact h1
        · exact strLt_trans h1 (hall a ha)
      · subst h2
        rw [List.pairwise_cons]
        exact ⟨hall, htl⟩
      · have hgt : strLt hk k = true := by
          rcases strLt_total k hk with hx | hx | hx
          · exact absurd hx h1
          · exact absurd hx h2
          · exact hx
        rw [List.pairwise_cons]
        refine ⟨?_, ih htl⟩
        intro a ha
        rcases mem_putState tl k v a ha with hx | hx
        · rw [hx]; exact hgt
        · exact hall a hx

/-- A successful `ModifyProduct` on a present, well-serialized record
saves, under the stored product's id, the merge that overwrites exactly
the non-empty proposals and refreshes `UpdatedDate` to the oracle
timestamp. -/
theorem modify_spec (st : Ledger) (t id status owner description category : String)
    (p : ProductEntity) (h : getState st id = some (marshalProduct p)) :
    ModifyProduct st (some t) id status owner description category
      = (.ok (), putState st p.ProductID
          (marshalProduct (mergeProduct p status owner description category t))) := by
  by_cases hs : status = "" <;> by_cases ho : owner = "" <;>
    by_cases hd : description = "" <;> by_cases hc : category = "" <;>
    simp [ModifyProduct, h, lenient_marshal, fetchTransactionTimestamp, saveProduct,
      mergeProduct, hs, ho, hd, hc]

/-- A `RegisterProduct` call on a present key fails with the
already-exists error and leaves the ledger unchanged. -/
theorem register_present_fails (st : Ledger) (ts : Option String)
    (id name owner description category : String)
    (h : (getState st id).isSome = true) :
    RegisterProduct st ts id name owner description category
      = (.error (.alreadyExists id), st) := by
  simp [RegisterProduct, CheckProductExistence, h]

/-- A `RegisterProduct` call on an absent key writes exactly the new
product, with status `"Manufactured"` and both dates at the oracle
timestamp, under key `id`. -/
theorem register_absent (st : Ledger) (t id name owner description category : String)
    (h : getState st id = none) :
    RegisterProduct st (some t) id name owner description category
      = (.ok (), putState st id
          (marshalProduct (newProduct id name owner description category t))) := by
  simp [RegisterProduct, CheckProductExistence, h, fetchTransactionTimestamp, saveProduct,
    newProduct]

/-- A `ModifyProduct` call on an absent key fails with the not-found
error and leaves the ledger unchanged. -/
theorem modify_absent (st : Ledger) (ts : Option String)
    (id status owner description category : String)
    (h : getState st id = none) :
    ModifyProduct st ts id status owner description category
      = (.error (.notFound id), st) := by
  simp [ModifyProduct, h]

/-! ## Claims -/

/-- C1: whenever a record for `id` is already present, `RegisterProduct`
fails with the already-exists error and writes nothing; in particular,
after a successful `RegisterProduct` of `id`, a second call with the
same `id` fails with the already-exists error. -/
theorem C1_register_already_exists :
    (∀ (st : Ledger) (ts : Option String) (id name owner description category : String),
        (getState st id).isSome = true →
        RegisterProduct st ts id name owner description category
          = (.error (.alreadyExists id), st)) ∧
    (∀ (st st' : Ledger) (ts ts' : Option String)
        (id name owner description category name2 owner2 description2 category2 : String),
        RegisterProduct st ts id name owner description category = (.ok (), st') →
        RegisterProduct st' ts' id name2 owner2 description2 category2
          = (.error (.alreadyExists id), st')) := by
  refine ⟨register_present_fails, ?_⟩
  intro st st' ts ts' id name owner description category name2 owner2 description2 category2 h
  apply register_present_fails
  cases hst : getState st id with
  | some b => simp [RegisterProduct, CheckProductExistence, hst] at h
  | none =>
      cases ts with
      | none =>
          simp [RegisterProduct, CheckProductExistence, hst, fetchTransactionTimestamp] at h
      | some t =>
          rw [register_absent st t id name owner description category hst] at h
          have h2 : st' = putState st id
              (marshalProduct (newProduct id name owner description category t)) :=
            (Prod.mk.injEq _ _ _ _ ▸ h).symm.1.symm ▸ rfl
          rw [h2, getState_putState_self]
          rfl

/-- Witness for C1 at concrete inputs: a first registration succeeds and
the second one fails with the already-exists error. -/
theorem C1_witness :
    RegisterProduct [] (some "T0") "A" "Widget" "Acme" "desc" "cat"
      = (.ok (), sampleLedger) ∧
    RegisterProduct sampleLedger (some "T1") "A" "N2" "O2" "D2" "C2"
      = (.error (.alreadyExists "A"), sampleLedger) :=
  ⟨rfl, C1_register_already_exists.2 [] sampleLedger (some "T0") (some "T1")
      "A" "Widget" "Acme" "desc" "cat" "N2" "O2" "D2" "C2" rfl⟩

/-- C2: on an id with no record present, `RetrieveProduct` fails with the
not-found error, `CheckProductExistence` succeeds returning `false`, and
`ModifyProduct` and `TransferOwnership` fail with the not-found error,
each leaving the store unchanged. -/
theorem C2_not_found_symmetry (st : Ledger) (ts : Option String)
    (id status owner description category newOwner : String)
    (h : getState st id = none) :
    RetrieveProduct st id = .error (.notFound id) ∧
    CheckProductExistence st id = .ok false ∧
    ModifyProduct st ts id status owner description category
      = (.error (.notFound id), st) ∧
    TransferOwnership st ts id newOwner = (.error (.notFound id), st) := by
  refine ⟨?_, ?_, modify_absent st ts id status owner description category h,
    modify_absent st ts id "" newOwner "" "" h⟩
  · simp [RetrieveProduct, h]
  · simp [CheckProductExistence, h]

/-- Witness for C2 at concrete inputs: all four behaviors on an absent
id over the empty ledger. -/
theorem C2_witness :
    getState [] "missing" = none ∧
    (RetrieveProduct [] "missing" = .error (.notFound "missing") ∧
     CheckProductExistence [] "missing" = .ok false ∧
     ModifyProduct [] (some "T") "missing" "s" "o" "d" "c"
       = (.error (.notFound "missing"), []) ∧
     TransferOwnership [] (some "T") "missing" "x"
       = (.error (.notFound "missing"), [])) :=
  ⟨rfl, C2_not_found_symmetry [] (some "T") "missing" "s" "o" "d" "c" "x" rfl⟩

/-- C3: a `ModifyProduct` call on a present record replaces each of
status, owner, description and category exactly when the proposed value
is non-empty, and never changes the record's id and name. -/
theorem C3_modify_merge (st : Ledger) (t id status owner description category : String)
    (p : ProductEntity) (h : getState st id = some (marshalProduct p)) :
    ∃ p' : ProductEntity,
      ModifyProduct st (some t) id status owner description category
        = (.ok (), putState st p'.ProductID (marshalProduct p')) ∧
      p'.ProductStatus = (if status = "" then p.ProductStatus else status) ∧
      p'.CurrentOwner = (if owner = "" then p.CurrentOwner else owner) ∧
      p'.ProductDescription
        = (if description = "" then p.ProductDescription else description) ∧
      p'.ProductCategory = (if category = "" then p.ProductCategory else category) ∧
      p'.ProductID = p.ProductID ∧ p'.ProductName = p.ProductName ∧
      p'.CreatedDate = p.CreatedDate ∧ p'.UpdatedDate = t :=
  ⟨{ ProductID := p.ProductID, ProductName := p.ProductName,
     ProductStatus := if status = "" then p.ProductStatus else status,
     CurrentOwner := if owner = "" then p.CurrentOwner else owner,
     CreatedDate := p.CreatedDate, UpdatedDate := t,
     ProductCategory := if category = "" then p.ProductCategory else category,
     ProductDescription := if description = "" then p.ProductDescription else description },
   modify_spec st t id status owner description category p h,
   rfl, rfl, rfl, rfl, rfl, rfl, rfl, rfl⟩

/-- Witness for C3 at concrete inputs: status, description and category
are replaced, the empty owner proposal is kept, id and name unchanged. -/
theorem C3_witness :
    getState sampleLedger "A" = some (marshalProduct sampleProduct) ∧
    (∃ p' : ProductEntity,
        ModifyProduct sampleLedger (some "T1") "A" "Shipped" "" "d2" "c2"
          = (.ok (), putState sampleLedger p'.ProductID (marshalProduct p')) ∧
        p'.ProductStatus
          = (if "Shipped" = "" then sampleProduct.ProductStatus else "Shipped") ∧
        p'.CurrentOwner = (if "" = "" then sampleProduct.CurrentOwner else "") ∧
        p'.ProductDescription
          = (if "d2" = "" then sampleProduct.ProductDescription else "d2") ∧
        p'.ProductCategory
          = (if "c2" = "" then sampleProduct.ProductCategory else "c2") ∧
        p'.ProductID = sampleProduct.ProductID ∧
        p'.ProductName = sampleProduct.ProductName ∧
        p'.CreatedDate = sampleProduct.CreatedDate ∧ p'.UpdatedDate = "T1") :=
  ⟨rfl, C3_modify_merge sampleLedger "T1" "A" "Shipped" "" "d2" "c2" sampleProduct rfl⟩

/-- C4: `TransferOwnership` is exactly `ModifyProduct` with only the
owner populated, on every starting state and oracle timestamp. -/
theorem C4_transfer_equiv_modify (st : Ledger) (ts : Option String)
    (id newOwner : String) :
    TransferOwnership st ts id newOwner = ModifyProduct st ts id "" newOwner "" "" := rfl

/-- C5 (code bug): `ModifyProduct` on a present key holding malformed
bytes does not fail with a serialization error: the source discards the
`json.Unmarshal` error, so the call proceeds with the zero-valued record
and writes it back — here under the empty key. -/
theorem C5_modify_corrupt_proceeds :
    ModifyProduct [("p1", Bytes.corrupt "not-json")] (some "T") "p1" "" "" "" ""
      = (.ok (), [("", marshalProduct { zeroProduct with UpdatedDate := "T" }),
                  ("p1", Bytes.corrupt "not-json")]) := rfl

/-- C6: every successful `ModifyProduct` on a present record sets
`UpdatedDate` to the oracle timestamp, and in particular a call with all
four optional parameters empty still advances `UpdatedDate` while
leaving every other field unchanged. -/
theorem C6_modify_refreshes_updatedAt (st : Ledger)
    (t id status owner description category : String) (p : ProductEntity)
    (h : getState st id = some (marshalProduct p)) :
    (∃ p' : ProductEntity,
        ModifyProduct st (some t) id status owner description category
          = (.ok (), putState st p'.ProductID (marshalProduct p')) ∧
        p'.UpdatedDate = t) ∧
    ModifyProduct st (some t) id "" "" "" ""
      = (.ok (), putState st p.ProductID (marshalProduct { p with UpdatedDate := t })) := by
  refine ⟨⟨{ ProductID := p.ProductID, ProductName := p.ProductName,
             ProductStatus := if status = "" then p.ProductStatus else status,
             CurrentOwner := if owner = "" then p.CurrentOwner else owner,
             CreatedDate := p.CreatedDate, UpdatedDate := t,
             ProductCategory := if category = "" then p.ProductCategory else category,
             ProductDescription :=
               if description = "" then p.ProductDescription else description },
           modify_spec st t id status owner description category p h, rfl⟩, ?_⟩
  simpa [mergeProduct] using modify_spec st t id "" "" "" "" p h

/-- Witness for C6 at concrete inputs: the all-empty update still
refreshes `UpdatedDate`. -/
theorem C6_witness :
    getState sampleLedger "A" = some (marshalProduct sampleProduct) ∧
    ModifyProduct sampleLedger (some "T1") "A" "" "" "" ""
      = (.ok (), putState sampleLedger sampleProduct.ProductID
          (marshalProduct { sampleProduct with UpdatedDate := "T1" })) :=
  ⟨rfl, (C6_modify_refreshes_updatedAt sampleLedger "T1" "A" "s" "o" "d" "c"
      sampleProduct rfl).2⟩

/-- Well-formedness is monotone in the clock bound. -/
theorem wellFormed_mono {st : Ledger} {now t : String}
    (h : WellFormed st now) (hle : now ≤ t) : WellFormed st t := by
  intro k b hb
  obtain ⟨p, h1, h2, h3, h4⟩ := h k b hb
  exact ⟨p, h1, h2, h3, le_trans h4 hle⟩

/-- A `ModifyProduct` call preserves well-formedness when the clock does
not go back. -/
theorem modifyState_wellFormed {st : Ledger} {now : String}
    (t id status owner description category : String)
    (hwf : WellFormed st now) (hle : now ≤ t) :
    WellFormed (ModifyProduct st (some t) id status owner description category).2 t := by
  cases hst : getState st id with
  | none =>
      rw [modify_absent st (some t) id status owner description category hst]
      exact wellFormed_mono hwf hle
  | some bytes =>
      obtain ⟨q, hq, hqid, hq1, hq2⟩ := hwf id bytes hst
      subst hq
      have hres : (ModifyProduct st (some t) id status owner description category).2
          = putState st q.ProductID
              (marshalProduct (mergeProduct q status owner description category t)) :=
        (congrArg Prod.snd
          (modify_spec st t id status owner description category q hst)).trans rfl
      rw [hres]
      intro k b hb
      by_cases hk : k = q.ProductID
      · subst hk
        rw [getState_putState_self] at hb
        refine ⟨mergeProduct q status owner description category t,
          (Option.some.inj hb).symm, rfl, ?_, le_refl t⟩
        exact le_trans hq1 (le_trans hq2 hle)
      · rw [getState_putState_ne st q.ProductID k _ hk] at hb
        obtain ⟨p, h1, h2, h3, h4⟩ := hwf k b hb
        exact ⟨p, h1, h2, h3, le_trans h4 hle⟩

/-- Every chaincode invocation preserves well-formedness when the clock
does not go back. -/
theorem applyOp_wellFormed {st : Ledger} {now : String} (t : String) (op : Op)
    (hwf : WellFormed st now) (hle : now ≤ t) : WellFormed (applyOp st t op) t := by
  cases op with
  | register id name owner description category =>
      cases hst : getState st id with
      | some b =>
          have h2 := register_present_fails st (some t) id name owner description category
            (by rw [hst]; rfl)
          have hres : applyOp st t (Op.register id name owner description category) = st :=
            (congrArg Prod.snd h2).trans rfl
          rw [hres]
          exact wellFormed_mono hwf hle
      | none =>
          have hres : applyOp st t (Op.register id name owner description category)
              = putState st id
                  (marshalProduct (newProduct id name owner description category t)) :=
            (congrArg Prod.snd
              (register_absent st t id name owner description category hst)).trans rfl
          rw [hres]
          intro k b hb
          by_cases hk : k = id
          · subst hk
            rw [getState_putState_self] at hb
            exact ⟨newProduct k name owner description category t,
              (Option.some.inj hb).symm, rfl, le_refl t, le_refl t⟩
          · rw [getState_putState_ne st id k _ hk] at hb
            obtain ⟨p, h1, h2, h3, h4⟩ := hwf k b hb
            exact ⟨p, h1, h2, h3, le_trans h4 hle⟩
  | modify id status owner description category =>
      exact modifyState_wellFormed t id status owner description category hwf hle
  | transfer id newOwner =>
      exact modifyState_wellFormed t id "" newOwner "" "" hwf hle

/-- A `ModifyProduct` call never changes the `CreatedDate` of a stored
record of a well-formed ledger. -/
theorem modifyState_created {st : Ledger} {now : String}
    (t id status owner description category : String) (hwf : WellFormed st now) :
    ∀ k (p : ProductEntity), getState st k = some (marshalProduct p) →
      ∃ p', getState (ModifyProduct st (some t) id status owner description category).2 k
          = some (marshalProduct p') ∧ p'.CreatedDate = p.CreatedDate := by
  intro k p hk
  cases hst : getState st id with
  | none =>
      rw [modify_absent st (some t) id status owner description category hst]
      exact ⟨p, hk, rfl⟩
  | some bytes =>
      obtain ⟨q, hq, hqid, _, _⟩ := hwf id bytes hst
      subst hq
      have hres : (ModifyProduct st (some t) id status owner description category).2
          = putState st q.ProductID
              (marshalProduct (mergeProduct q status owner description category t)) :=
        (congrArg Prod.snd
          (modify_spec st t id status owner description category q hst)).trans rfl
      rw [hres]
      by_cases hkq : k = q.ProductID
      · subst hkq
        refine ⟨mergeProduct q status owner description category t,
          getState_putState_self st q.ProductID _, ?_⟩
        rw [hqid, hst] at hk
        have hqp : q = p := marshalProduct_inj (Option.some.inj hk)
        subst hqp
        rfl
      · refine ⟨p, ?_, rfl⟩
        rw [getState_putState_ne st q.ProductID k _ hkq]
        exact hk

/-- A `RegisterProduct` call never changes the `CreatedDate` of a stored
record. -/
theorem registerState_created (st : Ledger)
    (t id name owner description category : String) :
    ∀ k (p : ProductEntity), getState st k = some (marshalProduct p) →
      ∃ p', getState (RegisterProduct st (some t) id name owner description category).2 k
          = some (marshalProduct p') ∧ p'.CreatedDate = p.CreatedDate := by
  intro k p hk
  cases hst : getState st id with
  | some b =>
      have h2 := register_present_fails st (some t) id name owner description category
        (by rw [hst]; rfl)
      have hres : (RegisterProduct st (some t) id name owner description category).2 = st :=
        (congrArg Prod.snd h2).trans rfl
      rw [hres]
      exact ⟨p, hk, rfl⟩
  | none =>
      have hres : (RegisterProduct st (some t) id name owner description category).2
          = putState st id
              (marshalProduct (newProduct id name owner description category t)) :=
        (congrArg Prod.snd
          (register_absent st t id name owner description category hst)).trans rfl
      rw [hres]
      have hkid : k ≠ id := by
        intro he
        rw [he, hst] at hk
        exact Option.noConfusion hk
      refine ⟨p, ?_, rfl⟩
      rw [getState_putState_ne st id k _ hkid]
      exact hk

/-- One invocation never changes the `CreatedDate` of a stored record of
a well-formed ledger. -/
theorem applyOp_created {st : Ledger} {now : String} (t : String) (op : Op)
    (hwf : WellFormed st now) :
    ∀ k (p : ProductEntity), getState st k = some (marshalProduct p) →
      ∃ p', getState (applyOp st t op) k = some (marshalProduct p')
        ∧ p'.CreatedDate = p.CreatedDate := by
  cases op with
  | register id name owner description category =>
      exact registerState_created st t id name owner description category
  | modify id status owner description category =>
      exact modifyState_created t id status owner description category hwf
  | transfer id newOwner =>
      exact modifyState_created t id "" newOwner "" "" hwf

/-- Running a monotone-clock sequence preserves well-formedness. -/
theorem runOps_wellFormed (ops : List (String × Op)) :
    ∀ st now, WellFormed st now → TimesMono now ops →
      WellFormed (runOps st ops) (endTime now ops) := by
  induction ops with
  | nil => exact fun st now h _ => h
  | cons hd tl ih =>
      rcases hd with ⟨t, op⟩
      intro st now hwf hm
      exact ih (applyOp st t op) t (applyOp_wellFormed t op hwf hm.1) hm.2

/-- Running a monotone-clock sequence never changes a stored record's
`CreatedDate`. -/
theorem runOps_created (ops : List (String × Op)) :
    ∀ st now, WellFormed st now → TimesMono now ops →
      ∀ k (p : ProductEntity), getState st k = some (marshalProduct p) →
        ∃ p', getState (runOps st ops) k = some (marshalProduct p')
          ∧ p'.CreatedDate = p.CreatedDate := by
  induction ops with
  | nil => exact fun st now _ _ k p h => ⟨p, h, rfl⟩
  | cons hd tl ih =>
      rcases hd with ⟨t, op⟩
      intro st now hwf hm k p h
      obtain ⟨p1, h1, hc1⟩ := applyOp_created t op hwf k p h
      obtain ⟨p2, h2, hc2⟩ :=
        ih (applyOp st t op) t (applyOp_wellFormed t op hwf hm.1) hm.2 k p1 h1
      exact ⟨p2, h2, hc2.trans hc1⟩

/-- A prefix of a monotone-clock sequence is monotone. -/
theorem timesMono_prefix : ∀ (pre : List (String × Op)) (now : String)
    (suf : List (String × Op)), TimesMono now (pre ++ suf) → TimesMono now pre := by
  intro pre
  induction pre with
  | nil =>
      intro now suf _
      trivial
  | cons hd tl ih =>
      rcases hd with ⟨t, op⟩
      intro now suf h
      exact ⟨h.1, ih t suf h.2⟩

/-- C7: from any well-formed store, running any operation sequence with
non-decreasing oracle timestamps keeps, after every prefix, the
invariant that every stored record satisfies created ≤ updated; the run
never changes a stored record's `CreatedDate`; and a successful
registration sets `CreatedDate` (and `UpdatedDate`) to the registering
call's oracle timestamp. -/
theorem C7_timestamp_invariants (st : Ledger) (now : String)
    (ops : List (String × Op)) (hwf : WellFormed st now)
    (hmono : TimesMono now ops) :
    (∀ pre suf, ops = pre ++ suf →
        ∀ k b, getState (runOps st pre) k = some b →
          ∃ p : ProductEntity, b = marshalProduct p
            ∧ p.CreatedDate ≤ p.UpdatedDate) ∧
    (∀ k (p : ProductEntity), getState st k = some (marshalProduct p) →
        ∃ p', getState (runOps st ops) k = some (marshalProduct p')
          ∧ p'.CreatedDate = p.CreatedDate) ∧
    (∀ t id name owner description category, getState st id = none →
        ∃ p : ProductEntity,
          getState (applyOp st t (.register id name owner description category)) id
            = some (marshalProduct p) ∧ p.CreatedDate = t ∧ p.UpdatedDate = t) := by
  refine ⟨?_, runOps_created ops st now hwf hmono, ?_⟩
  · intro pre suf hsplit k b hb
    have hm : TimesMono now pre := by
      refine timesMono_prefix pre now suf ?_
      rw [← hsplit]
      exact hmono
    obtain ⟨p, h1, _, h3, _⟩ := runOps_wellFormed pre st now hwf hm k b hb
    exact ⟨p, h1, h3⟩
  · intro t id name owner description category habs
    have hres : applyOp st t (Op.register id name owner description category)
        = putState st id
            (marshalProduct (newProduct id name owner description category t)) :=
      (congrArg Prod.snd
        (register_absent st t id name owner description category habs)).trans rfl
    rw [hres]
    exact ⟨newProduct id name owner description category t,
      getState_putState_self st id _, rfl, rfl⟩

/-- Witness for C7 at concrete inputs: the empty store is well-formed
and a registration at time T1 stamps both dates with T1. -/
theorem C7_witness :
    WellFormed [] "T0" ∧
    (∃ p : ProductEntity,
        getState (applyOp [] "T1" (Op.register "A" "Widget" "Acme" "desc" "cat")) "A"
          = some (marshalProduct p) ∧ p.CreatedDate = "T1" ∧ p.UpdatedDate = "T1") := by
  have hwf : WellFormed [] "T0" := by
    intro k b hb
    simp [getState, List.lookup] at hb
  have hm : TimesMono "T0" ([] : List (String × Op)) := trivial
  exact ⟨hwf, (C7_timestamp_invariants [] "T0" [] hwf hm).2.2 "T1" "A" "Widget" "Acme"
    "desc" "cat" rfl⟩

/-- When every stored value is a serialized product, the scan loop
decodes the whole ledger in order. -/
theorem listDecode_ok (st : Ledger)
    (hwf : ∀ kv ∈ st, ∃ p : ProductEntity, kv.2 = marshalProduct p) :
    listDecode st = .ok (st.map fun kv => unmarshalProductLenient kv.2) := by
  induction st with
  | nil => rfl
  | cons hd tl ih =>
      have htl := ih fun kv hkv => hwf kv (List.mem_cons_of_mem _ hkv)
      obtain ⟨p, hp⟩ := hwf hd (List.mem_cons_self _ _)
      rcases hd with ⟨k, b⟩
      replace hp : b = marshalProduct p := hp
      subst hp
      simp [listDecode, unmarshal_marshal, htl, lenient_marshal]

/-- C8: on a key-sorted store of serialized products, `ListAllProducts`
succeeds and returns the decoded value of every entry of the full-range
scan, in the store's lexicographic key order — hence sorted by product
id — and on the empty store it returns the empty list, not an error. -/
theorem C8_listAll (st : Ledger)
    (hsorted : st.Pairwise fun a b => strLt a.1 b.1 = true)
    (hwf : ∀ kv ∈ st, ∃ p : ProductEntity,
        kv.2 = marshalProduct p ∧ p.ProductID = kv.1) :
    ∃ ps : List ProductEntity,
      ListAllProducts st = .ok ps ∧
      ps = st.map (fun kv => unmarshalProductLenient kv.2) ∧
      ps.Pairwise (fun a b => strLt a.ProductID b.ProductID = true) ∧
      ListAllProducts ([] : Ledger) = .ok ([] : List ProductEntity) := by
  refine ⟨st.map (fun kv => unmarshalProductLenient kv.2), ?_, rfl, ?_, rfl⟩
  · exact listDecode_ok st (fun kv hkv => (hwf kv hkv).imp fun p hp => hp.1)
  rw [List.pairwise_map]
  refine List.Pairwise.imp_of_mem ?_ hsorted
  intro a b ha hb hab
  obtain ⟨pa, hpa, hida⟩ := hwf a ha
  obtain ⟨pb, hpb, hidb⟩ := hwf b hb
  rw [hpa, hpb, lenient_marshal, lenient_marshal, hida, hidb]
  exact hab

/-- Witness for C8 at concrete inputs: a two-record sorted store lists
both products in key order. -/
theorem C8_witness :
    sampleLedger2.Pairwise (fun a b => strLt a.1 b.1 = true) ∧
    (∃ ps : List ProductEntity,
        ListAllProducts sampleLedger2 = .ok ps ∧
        ps = sampleLedger2.map (fun kv => unmarshalProductLenient kv.2) ∧
        ps.Pairwise (fun a b => strLt a.ProductID b.ProductID = true) ∧
        ListAllProducts ([] : Ledger) = .ok ([] : List ProductEntity)) := by
  have hsorted : sampleLedger2.Pairwise (fun a b => strLt a.1 b.1 = true) := by
    simp only [sampleLedger2, List.pairwise_cons, List.mem_singleton,
      List.not_mem_nil, false_implies, implies_true, List.Pairwise.nil, and_true]
    intro b hb
    subst hb
    decide
  have hwf : ∀ kv ∈ sampleLedger2, ∃ p : ProductEntity,
      kv.2 = marshalProduct p ∧ p.ProductID = kv.1 := by
    intro kv hkv
    simp only [sampleLedger2, List.mem_cons, List.not_mem_nil, or_false] at hkv
    rcases hkv with h | h
    · exact h ▸ ⟨sampleProduct, rfl, rfl⟩
    · exact h ▸ ⟨sampleProduct2, rfl, rfl⟩
  exact ⟨hsorted, C8_listAll sampleLedger2 hsorted hwf⟩

/-- C9: serializing any record to the flat JSON wire format and
deserializing the result is the identity, field for field; the wire
object carries exactly the eight documented field names. -/
theorem C9_serialize_roundtrip (p : ProductEntity) :
    marshalProduct p
      = .json [("product_id", p.ProductID), ("product_name", p.ProductName),
               ("product_status", p.ProductStatus), ("current_owner", p.CurrentOwner),
               ("created_date", p.CreatedDate), ("updated_date", p.UpdatedDate),
               ("product_category", p.ProductCategory),
               ("product_description", p.ProductDescription)] ∧
    unmarshalProduct (marshalProduct p) = .ok p ∧
    unmarshalProductLenient (marshalProduct p) = p :=
  ⟨rfl, unmarshal_marshal p, lenient_marshal p⟩

/-- C10: `RegisterProduct` validates nothing beyond the existence check:
on any absent id — the empty string included — it succeeds, writes under
key `id` a record with status "Manufactured" and both dates equal to the
oracle timestamp, and the record can be retrieved under that key. -/
theorem C10_register_no_validation (st : Ledger)
    (t id name owner description category : String)
    (h : getState st id = none) :
    RegisterProduct st (some t) id name owner description category
      = (.ok (), putState st id (marshalProduct
          { ProductID := id, ProductName := name, ProductStatus := "Manufactured",
            CurrentOwner := owner, CreatedDate := t, UpdatedDate := t,
            ProductCategory := category, ProductDescription := description })) ∧
    RetrieveProduct
        (RegisterProduct st (some t) id name owner description category).2 id
      = .ok { ProductID := id, ProductName := name, ProductStatus := "Manufactured",
              CurrentOwner := owner, CreatedDate := t, UpdatedDate := t,
              ProductCategory := category, ProductDescription := description } := by
  have h1 : RegisterProduct st (some t) id name owner description category
      = (.ok (), putState st id (marshalProduct
          { ProductID := id, ProductName := name, ProductStatus := "Manufactured",
            CurrentOwner := owner, CreatedDate := t, UpdatedDate := t,
            ProductCategory := category, ProductDescription := description })) :=
    register_absent st t id name owner description category h
  refine ⟨h1, ?_⟩
  rw [h1]
  simp [RetrieveProduct, getState_putState_self, unmarshal_marshal]

/-- Witness for C10 at concrete inputs: registering with every argument
the empty string succeeds and the record is retrievable under key "". -/
theorem C10_witness :
    getState [] "" = none ∧
    (RegisterProduct [] (some "T") "" "" "" "" ""
        = (.ok (), putState [] "" (marshalProduct
            { ProductID := "", ProductName := "", ProductStatus := "Manufactured",
              CurrentOwner := "", CreatedDate := "T", UpdatedDate := "T",
              ProductCategory := "", ProductDescription := "" })) ∧
     RetrieveProduct (RegisterProduct [] (some "T") "" "" "" "" "").2 ""
        = .ok { ProductID := "", ProductName := "", ProductStatus := "Manufactured",
                CurrentOwner := "", CreatedDate := "T", UpdatedDate := "T",
                ProductCategory := "", ProductDescription := "" }) :=
  ⟨rfl, C10_register_no_validation [] "T" "" "" "" "" "" rfl⟩

end SupplyChain
